import Mathlib

/-!
Verification of the scheduler core (`BaseScheduler` in
`apscheduler/schedulers/base.py`) against its natural-language specification.

Shallow embedding conventions:
* Instants are integers (microsecond ticks of a timezone-aware clock); the
  smallest representable positive duration (`timedelta(microseconds=1)`)
  is `1`.
* Python exceptions are modelled with `Except PyErr` for the mutation API and,
  for the firing loop `_process_jobs`, with an explicit `Option PyErr`
  component so that the state mutated before an uncaught exception is kept
  (Python mutates stores in place).
* Classes of this repository that are not part of the given source
  (`Job`, the triggers, the executors, the job stores) are modelled from the
  spec; each such definition carries a doc comment saying so.  The code of
  `BaseScheduler` itself is translated directly.
-/

abbrev Alias := String

abbrev JobId := String

/-- Outcome of one `executor.submit_job(job, run_times)` call:
normal return, `MaxInstancesReachedError`, or any other raised exception. -/
inductive SubmitResult where
  | ok : SubmitResult
  | maxInstancesReached : SubmitResult
  | raised : String → SubmitResult
deriving DecidableEq, Repr

/-- Python exceptions surfaced by the scheduler core. -/
inductive PyErr where
  | schedulerNotRunning : PyErr
  | schedulerAlreadyRunning : PyErr
  | keyError : String → PyErr
  | jobNotFound : JobId → PyErr
  | attributeError : String → PyErr
  | storeError : String → PyErr
deriving DecidableEq, Repr

/-- Events emitted through `_notify_listeners`. -/
inductive Event where
  | scheduler_start : Event
  | scheduler_shutdown : Event
  | jobstore_added : Alias → Event
  | jobstore_removed : Alias → Event
  | jobstore_job_added : Alias → JobId → Event
  | jobstore_job_modified : Alias → JobId → Event
  | jobstore_job_removed : Alias → JobId → Event
deriving DecidableEq, Repr

/-- `Job` value object.  Modelled from the spec (the `Job` class is not part
of the given source; `base.py` only constructs it and reads these fields).
`trigger` is the opaque `get_next_fire_time` function of the job's trigger.
`func`, `args`, `kwargs` and `name` play no role in any claim and are
omitted. -/
structure Job where
  id : JobId
  executor : Alias
  trigger : Int → Option Int
  misfire_grace_time : Option Nat
  coalesce : Bool
  max_runs : Option Nat
  max_instances : Nat
  runs : Nat
  next_run_time : Option Int

/-- A partial change set passed to `modify_job` / `Job.modify`.  A field that
is `none` is absent from the Python `changes` dict. -/
structure Changes where
  id : Option JobId := none
  next_run_time : Option (Option Int) := none
  runs : Option Nat := none
deriving DecidableEq, Repr

/-- Modelled from the spec: `Job.modify` / the store's partial update apply
exactly the keys present in the change set. -/
def Job.applyChanges (j : Job) (c : Changes) : Job :=
  { j with
    id := c.id.getD j.id
    next_run_time := c.next_run_time.getD j.next_run_time
    runs := c.runs.getD j.runs }

/-- Modelled from the spec: `Job.validate_changes` lets a valid change set
through unchanged (no claim exercises rejection of invalid keys). -/
def Job.validate_changes (_ : Job) (c : Changes) : Changes := c

/-- Modelled from the spec: the one-shot date trigger synthesized by
`add_job` when no trigger is supplied fires exactly once, at `run_date`. -/
def dateTrigger (run_date : Int) : Int → Option Int :=
  fun after => if after ≤ run_date then some run_date else none

/-- Modelled from the spec: the chain of trigger fire times starting at a
given instant and not exceeding `now`, advancing by the smallest positive
duration after each one.  `fuel` bounds the iteration (a bad trigger could
yield infinitely many past fire times). -/
def fireTimes (trigger : Int → Option Int) (now : Int) : Nat → Option Int → List Int
  | 0, _ => []
  | _ + 1, none => []
  | fuel + 1, some t =>
    if t ≤ now then t :: fireTimes trigger now fuel (trigger (t + 1)) else []

/-- A run time `t` is still within the misfire grace of `now`
(`none` grace means unlimited tolerance). -/
def withinGrace (grace : Option Nat) (now t : Int) : Bool :=
  match grace with
  | none => true
  | some g => now - t ≤ (g : Int)

/-- Modelled from the spec: `Job.get_run_times(now)` is every trigger fire
time in `[next_run_time, now]` still within `misfire_grace_time` of `now`. -/
def Job.get_run_times (fuel : Nat) (j : Job) (now : Int) : List Int :=
  (fireTimes j.trigger now fuel j.next_run_time).filter (withinGrace j.misfire_grace_time now)

/-- Python's `run_times[-1:]`. -/
def lastSlice (l : List Int) : List Int := l.drop (l.length - 1)

/-- The run-time list actually handed to the executor
(`run_times = run_times[-1:] if run_times and job.coalesce else run_times`). -/
def runTimesFor (fuel : Nat) (j : Job) (now : Int) : List Int :=
  let run_times := Job.get_run_times fuel j now
  if run_times ≠ [] ∧ j.coalesce then lastSlice run_times else run_times

/-- `job_next_run and (job.max_runs is None or job_runs < job.max_runs)`,
second conjunct. -/
def underMax : Option Nat → Nat → Bool
  | none, _ => true
  | some m, n => n < m

/-- First job with the given id, if any. -/
def findJobById : List Job → JobId → Option Job
  | [], _ => none
  | j :: rest, jid => if j.id = jid then some j else findJobById rest jid

/-- Whether some job has the given id. -/
def hasJobId : List Job → JobId → Bool
  | [], _ => false
  | j :: rest, jid => if j.id = jid then true else hasJobId rest jid

/-- Apply a change set to every job carrying the given id. -/
def modifyJobs : List Job → JobId → Changes → List Job
  | [], _, _ => []
  | j :: rest, jid, ch =>
    (if j.id = jid then j.applyChanges ch else j) :: modifyJobs rest jid ch

/-- Delete every job carrying the given id. -/
def removeJobs : List Job → JobId → List Job
  | [], _ => []
  | j :: rest, jid => if j.id = jid then removeJobs rest jid else j :: removeJobs rest jid

/-- Modelled from the spec: a job store is a set of jobs keyed by id.  The
three flags inject faults of the pluggable backend (a store operation that
raises), needed to settle whether the firing loop survives a faulty store. -/
structure JobStoreM where
  jobs : List Job
  scanFails : Bool := false
  modifyFails : Bool := false
  removeFails : Bool := false

/-- Modelled from the spec: `lookup_job(id)` fetches or fails. -/
def JobStoreM.lookup_job (st : JobStoreM) (jid : JobId) : Except PyErr Job :=
  match findJobById st.jobs jid with
  | some j => .ok j
  | none => .error (.jobNotFound jid)

/-- Modelled from the spec: `modify_job(id, changes)` partially updates an
existing job. -/
def JobStoreM.modify_job (st : JobStoreM) (jid : JobId) (ch : Changes) : Except PyErr JobStoreM :=
  if st.modifyFails then .error (.storeError "modify_job raised")
  else if hasJobId st.jobs jid then .ok { st with jobs := modifyJobs st.jobs jid ch }
  else .error (.jobNotFound jid)

/-- Modelled from the spec: `remove_job(id)` deletes or fails. -/
def JobStoreM.remove_job (st : JobStoreM) (jid : JobId) : Except PyErr JobStoreM :=
  if st.removeFails then .error (.storeError "remove_job raised")
  else if hasJobId st.jobs jid then .ok { st with jobs := removeJobs st.jobs jid }
  else .error (.jobNotFound jid)

/-- Modelled from the spec: `add_job(job)` inserts, failing on id collision. -/
def JobStoreM.add_job (st : JobStoreM) (j : Job) : Except PyErr JobStoreM :=
  if hasJobId st.jobs j.id then .error (.keyError j.id)
  else .ok { st with jobs := st.jobs ++ [j] }

/-- `get_all_jobs()`. -/
def JobStoreM.get_all_jobs (st : JobStoreM) : List Job := st.jobs

/-- The due jobs of a store: every job whose `next_run_time` is not `None`
and is `≤ now` (a retired job is never returned by the due scan). -/
def dueJobs : List Job → Int → List Job
  | [], _ => []
  | j :: rest, now =>
    match j.next_run_time with
    | some t => if t ≤ now then j :: dueJobs rest now else dueJobs rest now
    | none => dueJobs rest now

/-- The earliest `next_run_time` strictly greater than `now`, if any. -/
def nextFutureTime : List Job → Int → Option Int
  | [], _ => none
  | j :: rest, now =>
    let r := nextFutureTime rest now
    match j.next_run_time with
    | some t =>
      if now < t then
        match r with
        | none => some t
        | some u => some (min t u)
      else r
    | none => r

/-- Modelled from the spec: `get_pending_jobs(now)` (the due scan) returns
the due jobs plus the earliest future fire time of the store. -/
def JobStoreM.get_pending_jobs (st : JobStoreM) (now : Int) :
    Except PyErr (List Job × Option Int) :=
  if st.scanFails then .error (.storeError "get_pending_jobs raised")
  else .ok (dueJobs st.jobs now, nextFutureTime st.jobs now)

/-- First value registered under an alias. -/
def lookupAlias {α : Type} : List (Alias × α) → Alias → Option α
  | [], _ => none
  | (k, v) :: rest, a => if k = a then some v else lookupAlias rest a

/-- Replace the value registered under an alias (first occurrence),
like assignment into a Python dict slot. -/
def updateAlias {α : Type} : List (Alias × α) → Alias → α → List (Alias × α)
  | [], _, _ => []
  | (k, v) :: rest, a, w =>
    if k = a then (a, w) :: rest else (k, v) :: updateAlias rest a w

/-- The state of a `BaseScheduler`: lifecycle flag, configured defaults,
executor registry (each executor abstracted to its `submit_job` outcome
function), job store registry, and the pending-jobs staging list. -/
structure SchedState where
  stopped : Bool
  misfire_grace_time : Nat
  coalesce : Bool
  executors : List (Alias × (Job → List Int → SubmitResult))
  jobstores : List (Alias × JobStoreM)
  pending_jobs : List (Job × Alias)

def SchedState.running (s : SchedState) : Bool := !s.stopped

/-- The `Job` constructed by `add_job` (lines 231-253 of `base.py`):
if no trigger is supplied, a date trigger firing at `now` (the current time
in the scheduler's timezone) is synthesized and the local
`misfire_grace_time` variable is set to `None`; the job's grace is then
`misfire_grace_time if misfire_grace_time is not None else
self.misfire_grace_time`, and likewise for `coalesce`. -/
def buildJob (s : SchedState) (now : Int) (trigger : Option (Int → Option Int))
    (id : JobId) (misfire_grace_time : Option Nat) (coalesce : Option Bool)
    (max_runs : Option Nat) (max_instances : Nat) (executorAlias : Alias) : Job :=
  let pair : (Int → Option Int) × Option Nat :=
    match trigger with
    | none => (dateTrigger now, none)
    | some t => (t, misfire_grace_time)
  { id := id
    executor := executorAlias
    trigger := pair.1
    misfire_grace_time := some (pair.2.getD s.misfire_grace_time)
    coalesce := coalesce.getD s.coalesce
    max_runs := max_runs
    max_instances := max_instances
    runs := 0
    next_run_time := none }

/-- `_real_add_job(job, jobstore, wakeup)`: compute the initial
`next_run_time` from the trigger at `now`, insert into the named store,
emit `JOB_ADDED`, optionally request a wakeup. -/
def real_add_job (s : SchedState) (now : Int) (job : Job) (jobstore : Alias)
    (wakeup : Bool) : Except PyErr (SchedState × List Event × Bool) :=
  let job := { job with next_run_time := job.trigger now }
  match lookupAlias s.jobstores jobstore with
  | none => .error (.keyError jobstore)
  | some st =>
    match st.add_job job with
    | .error e => .error e
    | .ok st' =>
      .ok ({ s with jobstores := updateAlias s.jobstores jobstore st' },
        [.jobstore_job_added jobstore job.id], wakeup)

/-- `add_job` (lines 190-262): build the job; while not running, park it in
the pending list (no event, no wakeup); while running, go through
`_real_add_job`.  Returns the new state, the emitted events, whether a
wakeup was requested, and the returned `JobHandle` (store alias, job id). -/
def add_job (s : SchedState) (now : Int) (trigger : Option (Int → Option Int))
    (id : JobId) (misfire_grace_time : Option Nat) (coalesce : Option Bool)
    (max_runs : Option Nat) (max_instances : Nat) (jobstore : Alias)
    (executorAlias : Alias) :
    Except PyErr (SchedState × List Event × Bool × (Alias × JobId)) :=
  let job := buildJob s now trigger id misfire_grace_time coalesce max_runs
    max_instances executorAlias
  if s.stopped then
    .ok ({ s with pending_jobs := s.pending_jobs ++ [(job, jobstore)] }, [], false,
      (jobstore, job.id))
  else
    match real_add_job s now job jobstore true with
    | .error e => .error e
    | .ok (s', evs, wk) => .ok (s', evs, wk, (jobstore, job.id))

/-- `shutdown(wait)` (lines 81-102): fail with `SchedulerNotRunningError` if
not running, else flip to stopped, shut down executors and close stores
(external effects), and emit `SCHEDULER_SHUTDOWN`. -/
def shutdown (s : SchedState) (_wait : Bool) : Except PyErr (SchedState × List Event) :=
  if s.stopped then .error .schedulerNotRunning
  else .ok ({ s with stopped := true }, [.scheduler_shutdown])

/-- Apply a change set to the first pending job with the given id, if any
(the pending scan of `modify_job`). -/
def modifyPending : List (Job × Alias) → JobId → Changes → Option (List (Job × Alias))
  | [], _, _ => none
  | (j, a) :: rest, jid, ch =>
    if j.id = jid then some ((j.applyChanges ch, a) :: rest)
    else (modifyPending rest jid ch).map (fun r => (j, a) :: r)

/-- Delete the first pending job with the given id, if any
(the pending scan of `remove_job`). -/
def removePending : List (Job × Alias) → JobId → Option (List (Job × Alias))
  | [], _ => none
  | (j, a) :: rest, jid =>
    if j.id = jid then some rest
    else (removePending rest jid).map (fun r => (j, a) :: r)

/-- `modify_job(job_id, jobstore, **changes)` (lines 274-297): if the id
matches a pending job, apply the changes to it in memory and return (no
event, no wakeup); otherwise look the job up in the store (by
`changes.get('id', job_id)`), validate, persist via the store, emit
`JOB_MODIFIED` and request a wakeup.  The third component of the result is
whether `_wakeup` was called. -/
def modify_job (s : SchedState) (job_id : JobId) (jobstore : Alias)
    (changes : Changes) : Except PyErr (SchedState × List Event × Bool) :=
  match modifyPending s.pending_jobs job_id changes with
  | some p' => .ok ({ s with pending_jobs := p' }, [], false)
  | none =>
    match lookupAlias s.jobstores jobstore with
    | none => .error (.keyError jobstore)
    | some st =>
      match st.lookup_job (changes.id.getD job_id) with
      | .error e => .error e
      | .ok job =>
        match st.modify_job job_id (job.validate_changes changes) with
        | .error e => .error e
        | .ok st' =>
          .ok ({ s with jobstores := updateAlias s.jobstores jobstore st' },
            [.jobstore_job_modified jobstore job_id], true)

/-- `remove_job(job_id, jobstore)` (lines 334-355): if the id matches a
pending job, drop it and return (no event); otherwise remove from the named
store and emit `JOB_REMOVED`. -/
def remove_job (s : SchedState) (job_id : JobId) (jobstore : Alias) :
    Except PyErr (SchedState × List Event) :=
  match removePending s.pending_jobs job_id with
  | some p' => .ok ({ s with pending_jobs := p' }, [])
  | none =>
    match lookupAlias s.jobstores jobstore with
    | none => .error (.keyError jobstore)
    | some st =>
      match st.remove_job job_id with
      | .error e => .error e
      | .ok st' =>
        .ok ({ s with jobstores := updateAlias s.jobstores jobstore st' },
          [.jobstore_job_removed jobstore job_id])

/-- Python truthiness of the optional store alias
(`[jobstore] if jobstore else self._jobstores`). -/
def pyTruthyStr : Option String → Bool
  | none => false
  | some s => s ≠ ""

/-- Handles for the pending jobs passing the alias filter
(`if jobstore is None or alias == jobstore`). -/
def pendingHandles : List (Job × Alias) → Option Alias → List (Alias × JobId)
  | [], _ => []
  | (job, alias') :: rest, jobstore =>
    if jobstore = none ∨ jobstore = some alias' then
      (alias', job.id) :: pendingHandles rest jobstore
    else pendingHandles rest jobstore

/-- Handles for every job of every registered store. -/
def allStoreHandles : List (Alias × JobStoreM) → List (Alias × JobId)
  | [] => []
  | (alias', st) :: rest => st.jobs.map (fun j => (alias', j.id)) ++ allStoreHandles rest

/-- `get_jobs(jobstore, pending)` (lines 299-325).  A handle is modelled as
the pair (store alias, job id).  When the scheduled branch runs with a
truthy alias, the source evaluates `six.iteritems([jobstore])` on a list,
which raises `AttributeError` and discards the result. -/
def get_jobs (s : SchedState) (jobstore : Option Alias) (pending : Option Bool) :
    Except PyErr (List (Alias × JobId)) :=
  let jobs1 := if pending ≠ some false then pendingHandles s.pending_jobs jobstore else []
  if pending ≠ some true then
    if pyTruthyStr jobstore then
      .error (.attributeError "list object has no attribute items")
    else .ok (jobs1 ++ allStoreHandles s.jobstores)
  else .ok jobs1

/-- One `executor.submit_job` call recorded by the firing loop. -/
structure Submission where
  job_id : JobId
  run_times : List Int
  result : SubmitResult
deriving DecidableEq, Repr

/-- The evolving state of one `_process_jobs` invocation: the scheduler
state, the accumulated `next_wakeup_time`, the events emitted so far, and
the submit calls made so far. -/
structure LoopState where
  sched : SchedState
  next_wakeup : Option Int
  events : List Event
  submissions : List Submission

/-- Folding a store's (or a job's) next fire time into `next_wakeup_time`:
`if not next_wakeup_time: ... elif jobstore_next_wakeup_time: min(...)`.
A `datetime` is always truthy, so truthiness is `isSome`. -/
def foldWake : Option Int → Option Int → Option Int
  | none, y => y
  | some x, none => some x
  | some x, some y => some (min x y)

/-- `jobstore.modify_job(job.id, changes)` as performed by the firing loop,
addressed through the scheduler state by store alias. -/
def jobstoreModifyAt (s : SchedState) (alias' : Alias) (jid : JobId)
    (ch : Changes) : Except PyErr SchedState :=
  match lookupAlias s.jobstores alias' with
  | none => .error (.keyError alias')
  | some st =>
    match st.modify_job jid ch with
    | .error e => .error e
    | .ok st' => .ok { s with jobstores := updateAlias s.jobstores alias' st' }

/-- The body of the inner loop of `_process_jobs` (lines 504-535) for one
due job: look up the executor (failure logged, job skipped), compute and
coalesce the run times, submit (both `MaxInstancesReachedError` and any
other exception are caught, logged, and leave the job untouched), and on
success either persist `{next_run_time, runs}` and fold the new time into
the wakeup, or remove the job via `self.remove_job`.  The `Option PyErr`
component is an exception escaping the body (the two store-update calls are
not guarded by any `try`). -/
def processDueJob (fuel : Nat) (now : Int) (alias' : Alias) (job : Job)
    (ls : LoopState) : LoopState × Option PyErr :=
  match lookupAlias ls.sched.executors job.executor with
  | none => (ls, none)
  | some exec =>
    let run_times := runTimesFor fuel job now
    if run_times = [] then (ls, none)
    else
      let result := exec job run_times
      let ls1 := { ls with submissions := ls.submissions ++ [⟨job.id, run_times, result⟩] }
      match result with
      | .maxInstancesReached => (ls1, none)
      | .raised _ => (ls1, none)
      | .ok =>
        let job_runs := job.runs + run_times.length
        match job.trigger (now + 1) with
        | some job_next_run =>
          if underMax job.max_runs job_runs then
            match jobstoreModifyAt ls1.sched alias' job.id
                ⟨none, some (some job_next_run), some job_runs⟩ with
            | .error e => (ls1, some e)
            | .ok s' =>
              ({ ls1 with
                  sched := s'
                  next_wakeup := foldWake ls1.next_wakeup (some job_next_run) }, none)
          else
            match remove_job ls1.sched job.id alias' with
            | .error e => (ls1, some e)
            | .ok (s', evs) => ({ ls1 with sched := s', events := ls1.events ++ evs }, none)
        | none =>
          match remove_job ls1.sched job.id alias' with
          | .error e => (ls1, some e)
          | .ok (s', evs) => ({ ls1 with sched := s', events := ls1.events ++ evs }, none)

/-- The inner loop of `_process_jobs` over the due jobs of one store. -/
def processJobsInStore (fuel : Nat) (now : Int) (alias' : Alias) :
    List Job → LoopState → LoopState × Option PyErr
  | [], ls => (ls, none)
  | job :: rest, ls =>
    match processDueJob fuel now alias' job ls with
    | (ls', none) => processJobsInStore fuel now alias' rest ls'
    | (ls', some e) => (ls', some e)

/-- One iteration of the outer loop of `_process_jobs`: the due scan of one
store (not guarded by any `try`), the wakeup fold, then the due jobs. -/
def processStore (fuel : Nat) (now : Int) (alias' : Alias) (ls : LoopState) :
    LoopState × Option PyErr :=
  match lookupAlias ls.sched.jobstores alias' with
  | none => (ls, none)
  | some st =>
    match st.get_pending_jobs now with
    | .error e => (ls, some e)
    | .ok (due, store_next) =>
      processJobsInStore fuel now alias' due
        { ls with next_wakeup := foldWake ls.next_wakeup store_next }

/-- The outer loop of `_process_jobs` over the registered store aliases. -/
def processStores (fuel : Nat) (now : Int) :
    List Alias → LoopState → LoopState × Option PyErr
  | [], ls => (ls, none)
  | a :: rest, ls =>
    match processStore fuel now a ls with
    | (ls', none) => processStores fuel now rest ls'
    | (ls', some e) => (ls', some e)

/-- `_process_jobs` (lines 486-546).  The returned `wait_seconds` is
`next_wakeup - now` of the final loop state when no exception escaped. -/
def process_jobs (fuel : Nat) (s : SchedState) (now : Int) : LoopState × Option PyErr :=
  processStores fuel now (s.jobstores.map (fun p => p.1)) ⟨s, none, [], []⟩

/-- Total length of the run-time lists successfully submitted for a job. -/
def successRunCount : List Submission → JobId → Nat
  | [], _ => 0
  | sb :: rest, jid =>
    (if sb.job_id = jid ∧ sb.result = SubmitResult.ok then sb.run_times.length else 0)
      + successRunCount rest jid

/-- The ids of a list of jobs. -/
def jobIds (l : List Job) : List JobId := l.map (fun j => j.id)

/-- A benign store: no injected faults, and ids unique within the store
(the spec's per-store invariant). -/
def StoreOk (st : JobStoreM) : Prop :=
  st.scanFails = false ∧ st.modifyFails = false ∧ st.removeFails = false ∧
    (jobIds st.jobs).Nodup

/-- Every registered store is benign. -/
def SchedOk (s : SchedState) : Prop := ∀ p ∈ s.jobstores, StoreOk p.2

/-- `runs ≤ max_runs` for one job whenever `max_runs` is set. -/
def runsBound (j : Job) : Bool :=
  match j.max_runs with
  | some m => decide (j.runs ≤ m)
  | none => true

/-- The spec's invariant on all stored jobs. -/
def runsOk (s : SchedState) : Prop :=
  ∀ p ∈ s.jobstores, ∀ j ∈ p.2.jobs, runsBound j = true


/-! ### Concrete instances used to exercise the model -/

/-- An executor whose submit always succeeds. -/
def execOk : Job → List Int → SubmitResult := fun _ _ => SubmitResult.ok

/-- An executor that always refuses with `MaxInstancesReachedError`. -/
def execMaxed : Job → List Int → SubmitResult := fun _ _ => SubmitResult.maxInstancesReached

/-- An interval-like trigger: fires at 0, then at 50, then never again. -/
def trigW1 : Int → Option Int :=
  fun t => if t ≤ 0 then some 0 else if t ≤ 50 then some 50 else none

def jobW1 : Job :=
  { id := "a", executor := "default", trigger := trigW1, misfire_grace_time := none,
    coalesce := false, max_runs := none, max_instances := 1, runs := 0,
    next_run_time := some 0 }

def stW1 : JobStoreM := { jobs := [jobW1] }

def schedW1 : SchedState :=
  { stopped := false, misfire_grace_time := 1, coalesce := true,
    executors := [("default", execOk)], jobstores := [("default", stW1)],
    pending_jobs := [] }

def lsW1 : LoopState := { sched := schedW1, next_wakeup := none, events := [], submissions := [] }

def schedW2 : SchedState :=
  { stopped := false, misfire_grace_time := 1, coalesce := true,
    executors := [("default", execMaxed)], jobstores := [("default", stW1)],
    pending_jobs := [] }

def lsW2 : LoopState := { sched := schedW2, next_wakeup := none, events := [], submissions := [] }

/-- A trigger yielding two past fire times (0 and 5) at `now = 10`. -/
def trigW3 : Int → Option Int :=
  fun t => if t ≤ 0 then some 0 else if t ≤ 5 then some 5
    else if t ≤ 80 then some 80 else none

def jobW3 : Job :=
  { id := "c", executor := "default", trigger := trigW3, misfire_grace_time := none,
    coalesce := true, max_runs := none, max_instances := 1, runs := 0,
    next_run_time := some 0 }

def schedW3 : SchedState :=
  { stopped := false, misfire_grace_time := 1, coalesce := true,
    executors := [("default", execOk)], jobstores := [("default", { jobs := [jobW3] })],
    pending_jobs := [] }

def lsW3 : LoopState := { sched := schedW3, next_wakeup := none, events := [], submissions := [] }

/-- `max_runs = 1` but two due fire times (0 and 10) and `coalesce = false`. -/
def trigC5 : Int → Option Int :=
  fun t => if t ≤ 0 then some 0 else if t ≤ 10 then some 10 else none

def jobC5 : Job :=
  { id := "j5", executor := "default", trigger := trigC5, misfire_grace_time := none,
    coalesce := false, max_runs := some 1, max_instances := 1, runs := 0,
    next_run_time := some 0 }

def schedC5 : SchedState :=
  { stopped := false, misfire_grace_time := 1, coalesce := true,
    executors := [("default", execOk)], jobstores := [("default", { jobs := [jobC5] })],
    pending_jobs := [] }

/-- A scheduler whose only store raises from its due scan. -/
def schedC6 : SchedState :=
  { stopped := false, misfire_grace_time := 1, coalesce := true,
    executors := [], jobstores := [("bad", { jobs := [], scanFails := true })],
    pending_jobs := [] }

/-- A running scheduler with empty registries. -/
def schedC7 : SchedState :=
  { stopped := false, misfire_grace_time := 1, coalesce := true,
    executors := [], jobstores := [], pending_jobs := [] }

/-- A scheduler whose configured default grace is 7 seconds. -/
def schedC4 : SchedState :=
  { stopped := true, misfire_grace_time := 7, coalesce := true,
    executors := [], jobstores := [], pending_jobs := [] }

def jobC8 : Job :=
  { id := "j8", executor := "default", trigger := fun _ => none,
    misfire_grace_time := some 1, coalesce := true, max_runs := none,
    max_instances := 1, runs := 0, next_run_time := some 100 }

def schedC8 : SchedState :=
  { stopped := false, misfire_grace_time := 1, coalesce := true,
    executors := [("default", execOk)], jobstores := [("default", { jobs := [jobC8] })],
    pending_jobs := [] }

def jobC9 : Job :=
  { id := "j9", executor := "default", trigger := fun _ => none,
    misfire_grace_time := some 1, coalesce := true, max_runs := none,
    max_instances := 1, runs := 0, next_run_time := some 100 }

def schedC9 : SchedState :=
  { stopped := false, misfire_grace_time := 1, coalesce := true,
    executors := [("default", execOk)], jobstores := [("default", { jobs := [jobC9] })],
    pending_jobs := [] }

/-- A job parked in the pending list, destined for store alias "storeA". -/
def jobC10 : Job :=
  { id := "p1", executor := "default", trigger := fun _ => none,
    misfire_grace_time := some 1, coalesce := true, max_runs := none,
    max_instances := 1, runs := 0, next_run_time := none }

def schedC10 : SchedState :=
  { stopped := true, misfire_grace_time := 1, coalesce := true,
    executors := [], jobstores := [("default", { jobs := [] })],
    pending_jobs := [(jobC10, "storeA")] }

/-! ### Helper lemmas -/

theorem applyChanges_empty (j : Job) : j.applyChanges {} = j := rfl

theorem applyChanges_id_of_none (j : Job) (c : Changes) (h : c.id = none) :
    (j.applyChanges c).id = j.id := by
  simp [Job.applyChanges, h]

theorem modifyJobs_empty (l : List Job) (jid : JobId) :
    modifyJobs l jid {} = l := by
  induction l with
  | nil => rfl
  | cons j rest ih => simp [modifyJobs, applyChanges_empty, ih]

theorem lookupAlias_mem {α : Type} (l : List (Alias × α)) (a : Alias) (v : α)
    (h : lookupAlias l a = some v) : (a, v) ∈ l := by
  induction l with
  | nil => simp [lookupAlias] at h
  | cons p rest ih =>
    obtain ⟨k, w⟩ := p
    by_cases hk : k = a
    · subst hk
      simp [lookupAlias] at h
      subst h
      exact List.mem_cons_self _ _
    · simp [lookupAlias, hk] at h
      exact List.mem_cons_of_mem _ (ih h)

theorem lookupAlias_updateAlias_self {α : Type} (l : List (Alias × α)) (a : Alias)
    (v w : α) (h : lookupAlias l a = some v) :
    lookupAlias (updateAlias l a w) a = some w := by
  induction l with
  | nil => simp [lookupAlias] at h
  | cons p rest ih =>
    obtain ⟨k, u⟩ := p
    by_cases hk : k = a
    · subst hk
      simp [updateAlias, lookupAlias]
    · simp [lookupAlias, updateAlias, hk] at h ⊢
      exact ih h

theorem updateAlias_self {α : Type} (l : List (Alias × α)) (a : Alias) (v : α)
    (h : lookupAlias l a = some v) : updateAlias l a v = l := by
  induction l with
  | nil => rfl
  | cons p rest ih =>
    obtain ⟨k, u⟩ := p
    by_cases hk : k = a
    · subst hk
      simp [lookupAlias] at h
      simp [updateAlias, h]
    · simp [lookupAlias, hk] at h
      simp [updateAlias, hk, ih h]

theorem mem_updateAlias {α : Type} (l : List (Alias × α)) (a : Alias) (w : α)
    (p : Alias × α) (h : p ∈ updateAlias l a w) : p ∈ l ∨ p = (a, w) := by
  induction l with
  | nil => simp [updateAlias] at h
  | cons q rest ih =>
    obtain ⟨k, u⟩ := q
    by_cases hk : k = a
    · subst hk
      simp [updateAlias] at h
      rcases h with h | h
      · right; exact h
      · left; exact List.mem_cons_of_mem _ h
    · simp [updateAlias, hk] at h
      rcases h with h | h
      · left; simp [h]
      · rcases ih h with h' | h'
        · left; exact List.mem_cons_of_mem _ h'
        · right; exact h'

theorem findJobById_mem (l : List Job) (jid : JobId) (j : Job)
    (h : findJobById l jid = some j) : j ∈ l := by
  induction l with
  | nil => simp [findJobById] at h
  | cons j0 rest ih =>
    by_cases h0 : j0.id = jid
    · simp [findJobById, h0] at h
      subst h
      exact List.mem_cons_self _ _
    · simp [findJobById, h0] at h
      exact List.mem_cons_of_mem _ (ih h)

theorem findJobById_id (l : List Job) (jid : JobId) (j : Job)
    (h : findJobById l jid = some j) : j.id = jid := by
  induction l with
  | nil => simp [findJobById] at h
  | cons j0 rest ih =>
    by_cases h0 : j0.id = jid
    · simp [findJobById, h0] at h
      subst h
      exact h0
    · simp [findJobById, h0] at h
      exact ih h

theorem hasJobId_of_mem (l : List Job) (j : Job) (hmem : j ∈ l) :
    hasJobId l j.id = true := by
  induction l with
  | nil => simp at hmem
  | cons j0 rest ih =>
    rcases List.mem_cons.mp hmem with h | h
    · subst h
      simp [hasJobId]
    · by_cases h0 : j0.id = j.id
      · simp [hasJobId, h0]
      · simp [hasJobId, h0]
        exact ih h

theorem hasJobId_of_findJobById (l : List Job) (jid : JobId) (j : Job)
    (h : findJobById l jid = some j) : hasJobId l jid = true := by
  have hj := findJobById_id l jid j h
  have := hasJobId_of_mem l j (findJobById_mem l jid j h)
  rwa [hj] at this

theorem findJobById_modifyJobs (l : List Job) (jid : JobId) (ch : Changes)
    (j : Job) (h : findJobById l jid = some j) (hch : ch.id = none) :
    findJobById (modifyJobs l jid ch) jid = some (j.applyChanges ch) := by
  induction l with
  | nil => simp [findJobById] at h
  | cons j0 rest ih =>
    by_cases h0 : j0.id = jid
    · simp only [findJobById, if_pos h0, Option.some.injEq] at h
      obtain rfl := h
      have hid : (j0.applyChanges ch).id = jid := by
        rw [applyChanges_id_of_none j0 ch hch]
        exact h0
      simp [modifyJobs, findJobById, h0, hid]
    · simp [findJobById, h0] at h
      simp [modifyJobs, findJobById, h0, ih h]

theorem findJobById_removeJobs (l : List Job) (jid : JobId) :
    findJobById (removeJobs l jid) jid = none := by
  induction l with
  | nil => rfl
  | cons j0 rest ih =>
    by_cases h0 : j0.id = jid
    · simp [removeJobs, h0, ih]
    · simp [removeJobs, findJobById, h0, ih]

theorem mem_modifyJobs_of_ne (l : List Job) (jid : JobId) (ch : Changes)
    (j : Job) (hmem : j ∈ l) (hne : j.id ≠ jid) : j ∈ modifyJobs l jid ch := by
  induction l with
  | nil => simp at hmem
  | cons j0 rest ih =>
    rcases List.mem_cons.mp hmem with h | h
    · subst h
      simp [modifyJobs, hne]
    · simp [modifyJobs]
      right
      exact ih h

theorem mem_removeJobs_of_ne (l : List Job) (jid : JobId) (j : Job)
    (hmem : j ∈ l) (hne : j.id ≠ jid) : j ∈ removeJobs l jid := by
  induction l with
  | nil => simp at hmem
  | cons j0 rest ih =>
    rcases List.mem_cons.mp hmem with h | h
    · subst h
      simp [removeJobs, hne]
    · by_cases h0 : j0.id = jid
      · simp [removeJobs, h0]
        exact ih h
      · simp [removeJobs, h0]
        right
        exact ih h

theorem mem_modifyJobs_cases (l : List Job) (jid : JobId) (ch : Changes)
    (j' : Job) (h : j' ∈ modifyJobs l jid ch) :
    ∃ j, j ∈ l ∧ ((j.id = jid ∧ j' = j.applyChanges ch) ∨ (j.id ≠ jid ∧ j' = j)) := by
  induction l with
  | nil => simp [modifyJobs] at h
  | cons j0 rest ih =>
    simp only [modifyJobs, List.mem_cons] at h
    rcases h with h | h
    · by_cases h0 : j0.id = jid
      · exact ⟨j0, List.mem_cons_self _ _, Or.inl ⟨h0, by simpa [h0] using h⟩⟩
      · exact ⟨j0, List.mem_cons_self _ _, Or.inr ⟨h0, by simpa [h0] using h⟩⟩
    · obtain ⟨j, hj, hcase⟩ := ih h
      exact ⟨j, List.mem_cons_of_mem _ hj, hcase⟩

theorem removeJobs_sublist (l : List Job) (jid : JobId) :
    (removeJobs l jid).Sublist l := by
  induction l with
  | nil => simp [removeJobs]
  | cons j0 rest ih =>
    by_cases h0 : j0.id = jid
    · simp only [removeJobs, if_pos h0]
      exact ih.cons _
    · simp only [removeJobs, if_neg h0]
      exact ih.cons₂ _

theorem dueJobs_sublist (l : List Job) (now : Int) :
    (dueJobs l now).Sublist l := by
  induction l with
  | nil => simp [dueJobs]
  | cons j0 rest ih =>
    match hnr : j0.next_run_time with
    | some t =>
      by_cases ht : t ≤ now
      · simp only [dueJobs, hnr, if_pos ht]
        exact ih.cons₂ _
      · simp only [dueJobs, hnr, if_neg ht]
        exact ih.cons _
    | none =>
      simp only [dueJobs, hnr]
      exact ih.cons _

theorem mem_dueJobs (l : List Job) (now : Int) (j : Job)
    (h : j ∈ dueJobs l now) : j ∈ l :=
  (dueJobs_sublist l now).mem h

theorem jobIds_modifyJobs (l : List Job) (jid : JobId) (ch : Changes)
    (hch : ch.id = none) : jobIds (modifyJobs l jid ch) = jobIds l := by
  induction l with
  | nil => rfl
  | cons j0 rest ih =>
    by_cases h0 : j0.id = jid
    · simp [modifyJobs, jobIds, h0, applyChanges_id_of_none j0 ch hch] at ih ⊢
      exact ih
    · simp [modifyJobs, jobIds, h0] at ih ⊢
      exact ih

theorem jobIds_removeJobs_nodup (l : List Job) (jid : JobId)
    (h : (jobIds l).Nodup) : (jobIds (removeJobs l jid)).Nodup :=
  h.sublist ((removeJobs_sublist l jid).map _)

theorem jobIds_dueJobs_nodup (l : List Job) (now : Int)
    (h : (jobIds l).Nodup) : (jobIds (dueJobs l now)).Nodup :=
  h.sublist ((dueJobs_sublist l now).map _)

theorem nodup_ids_eq_of_mem (l : List Job) (h : (jobIds l).Nodup)
    (j1 j2 : Job) (h1 : j1 ∈ l) (h2 : j2 ∈ l) (hid : j1.id = j2.id) : j1 = j2 := by
  induction l with
  | nil => simp at h1
  | cons j0 rest ih =>
    simp only [jobIds, List.map_cons, List.nodup_cons] at h
    rcases List.mem_cons.mp h1 with e1 | e1 <;> rcases List.mem_cons.mp h2 with e2 | e2
    · rw [e1, e2]
    · subst e1
      exact absurd (hid ▸ List.mem_map_of_mem (fun j => j.id) e2) h.1
    · subst e2
      exact absurd (hid ▸ List.mem_map_of_mem (fun j => j.id) e1) h.1
    · exact ih h.2 e1 e2

theorem applyChanges_max_runs (j : Job) (c : Changes) :
    (j.applyChanges c).max_runs = j.max_runs := rfl

theorem runsBound_applyChanges (j : Job) (t : Option Int) (n : Nat)
    (h : underMax j.max_runs n = true) :
    runsBound (j.applyChanges ⟨none, some t, some n⟩) = true := by
  cases hmr : j.max_runs with
  | none => simp [runsBound, Job.applyChanges, hmr]
  | some m =>
    rw [hmr] at h
    simp only [underMax, decide_eq_true_eq] at h
    simp only [runsBound, Job.applyChanges, hmr, Option.getD_some, decide_eq_true_eq]
    omega

theorem dueJob_step (fuel : Nat) (now : Int) (alias' : Alias) (job : Job)
    (ls : LoopState) (st : JobStoreM)
    (hS : SchedOk ls.sched)
    (hst : lookupAlias ls.sched.jobstores alias' = some st)
    (hjob : job ∈ st.jobs) :
    ∃ ls' st', processDueJob fuel now alias' job ls = (ls', none) ∧
      lookupAlias ls'.sched.jobstores alias' = some st' ∧
      SchedOk ls'.sched ∧
      (runsOk ls.sched → runsOk ls'.sched) ∧
      (∀ j ∈ st.jobs, j.id ≠ job.id → j ∈ st'.jobs) := by
  obtain ⟨hscan0, hmod0, hrem0, hnodup0⟩ := hS (alias', st) (lookupAlias_mem _ _ _ hst)
  have hscan : st.scanFails = false := hscan0
  have hmod : st.modifyFails = false := hmod0
  have hrem : st.removeFails = false := hrem0
  have hnodup : (jobIds st.jobs).Nodup := hnodup0
  have hhas : hasJobId st.jobs job.id = true := hasJobId_of_mem st.jobs job hjob
  cases hE : lookupAlias ls.sched.executors job.executor with
  | none =>
    refine ⟨ls, st, ?_, hst, hS, fun h => h, fun j hj _ => hj⟩
    simp [processDueJob, hE]
  | some exec =>
    by_cases hrt : runTimesFor fuel job now = []
    · refine ⟨ls, st, ?_, hst, hS, fun h => h, fun j hj _ => hj⟩
      simp [processDueJob, hE, hrt]
    · cases hres : exec job (runTimesFor fuel job now) with
      | maxInstancesReached =>
        refine ⟨{ ls with
            submissions :=
              ls.submissions ++
                [⟨job.id, runTimesFor fuel job now, SubmitResult.maxInstancesReached⟩] },
          st, ?_, hst, hS, fun h => h, fun j hj _ => hj⟩
        simp [processDueJob, hE, hrt, hres]
      | raised msg =>
        refine ⟨{ ls with
            submissions :=
              ls.submissions ++
                [⟨job.id, runTimesFor fuel job now, SubmitResult.raised msg⟩] },
          st, ?_, hst, hS, fun h => h, fun j hj _ => hj⟩
        simp [processDueJob, hE, hrt, hres]
      | ok =>
        have hmemS : (alias', st) ∈ ls.sched.jobstores := lookupAlias_mem _ _ _ hst
        cases htr : job.trigger (now + 1) with
        | some t' =>
          by_cases hum : underMax job.max_runs
              (job.runs + (runTimesFor fuel job now).length) = true
          · refine ⟨{ ls with
                sched :=
                  { ls.sched with
                    jobstores :=
                      updateAlias ls.sched.jobstores alias'
                        { st with
                          jobs :=
                            modifyJobs st.jobs job.id
                              ⟨none, some (some t'),
                                some (job.runs + (runTimesFor fuel job now).length)⟩ } }
                next_wakeup := foldWake ls.next_wakeup (some t')
                submissions :=
                  ls.submissions ++
                    [⟨job.id, runTimesFor fuel job now, SubmitResult.ok⟩] },
              { st with
                jobs :=
                  modifyJobs st.jobs job.id
                    ⟨none, some (some t'),
                      some (job.runs + (runTimesFor fuel job now).length)⟩ },
              ?_, ?_, ?_, ?_, ?_⟩
            · simp [processDueJob, hE, hrt, hres, htr, hum, jobstoreModifyAt, hst,
                JobStoreM.modify_job, hmod, hhas]
            · exact lookupAlias_updateAlias_self _ _ st _ hst
            · intro p hp
              rcases mem_updateAlias _ _ _ p hp with h | h
              · exact hS p h
              · subst h
                refine ⟨hscan, hmod, hrem, ?_⟩
                rw [jobIds_modifyJobs st.jobs job.id _ rfl]
                exact hnodup
            · intro hro p hp
              rcases mem_updateAlias _ _ _ p hp with h | h
              · exact hro p h
              · subst h
                intro j' hj'
                obtain ⟨j, hjmem, hcase⟩ := mem_modifyJobs_cases _ _ _ j' hj'
                rcases hcase with ⟨hid, heq⟩ | ⟨hne2, heq⟩
                · have hjj : j = job :=
                    nodup_ids_eq_of_mem st.jobs hnodup j job hjmem hjob hid
                  rw [heq, hjj]
                  exact runsBound_applyChanges job _ _ hum
                · rw [heq]
                  exact hro (alias', st) hmemS j hjmem
            · intro j hj hne
              exact mem_modifyJobs_of_ne st.jobs job.id _ j hj hne
          · cases hp : removePending ls.sched.pending_jobs job.id with
            | some p' =>
              refine ⟨{ ls with
                  sched := { ls.sched with pending_jobs := p' }
                  events := ls.events ++ []
                  submissions :=
                    ls.submissions ++
                      [⟨job.id, runTimesFor fuel job now, SubmitResult.ok⟩] },
                st, ?_, hst, fun p hp' => hS p hp', fun hro p hp' => hro p hp',
                fun j hj _ => hj⟩
              simp [processDueJob, hE, hrt, hres, htr, hum, remove_job, hp]
            | none =>
              refine ⟨{ ls with
                  sched :=
                    { ls.sched with
                      jobstores :=
                        updateAlias ls.sched.jobstores alias'
                          { st with jobs := removeJobs st.jobs job.id } }
                  events := ls.events ++ [Event.jobstore_job_removed alias' job.id]
                  submissions :=
                    ls.submissions ++
                      [⟨job.id, runTimesFor fuel job now, SubmitResult.ok⟩] },
                { st with jobs := removeJobs st.jobs job.id },
                ?_, ?_, ?_, ?_, ?_⟩
              · simp [processDueJob, hE, hrt, hres, htr, hum, remove_job, hp, hst,
                  JobStoreM.remove_job, hrem, hhas]
              · exact lookupAlias_updateAlias_self _ _ st _ hst
              · intro p hp'
                rcases mem_updateAlias _ _ _ p hp' with h | h
                · exact hS p h
                · subst h
                  exact ⟨hscan, hmod, hrem, jobIds_removeJobs_nodup st.jobs job.id hnodup⟩
              · intro hro p hp'
                rcases mem_updateAlias _ _ _ p hp' with h | h
                · exact hro p h
                · subst h
                  intro j' hj'
                  exact hro (alias', st) hmemS j'
                    ((removeJobs_sublist st.jobs job.id).mem hj')
              · intro j hj hne
                exact mem_removeJobs_of_ne st.jobs job.id j hj hne
        | none =>
          cases hp : removePending ls.sched.pending_jobs job.id with
          | some p' =>
            refine ⟨{ ls with
                sched := { ls.sched with pending_jobs := p' }
                events := ls.events ++ []
                submissions :=
                  ls.submissions ++
                    [⟨job.id, runTimesFor fuel job now, SubmitResult.ok⟩] },
              st, ?_, hst, fun p hp' => hS p hp', fun hro p hp' => hro p hp',
              fun j hj _ => hj⟩
            simp [processDueJob, hE, hrt, hres, htr, remove_job, hp]
          | none =>
            refine ⟨{ ls with
                sched :=
                  { ls.sched with
                    jobstores :=
                      updateAlias ls.sched.jobstores alias'
                        { st with jobs := removeJobs st.jobs job.id } }
                events := ls.events ++ [Event.jobstore_job_removed alias' job.id]
                submissions :=
                  ls.submissions ++
                    [⟨job.id, runTimesFor fuel job now, SubmitResult.ok⟩] },
              { st with jobs := removeJobs st.jobs job.id },
              ?_, ?_, ?_, ?_, ?_⟩
            · simp [processDueJob, hE, hrt, hres, htr, remove_job, hp, hst,
                JobStoreM.remove_job, hrem, hhas]
            · exact lookupAlias_updateAlias_self _ _ st _ hst
            · intro p hp'
              rcases mem_updateAlias _ _ _ p hp' with h | h
              · exact hS p h
              · subst h
                exact ⟨hscan, hmod, hrem, jobIds_removeJobs_nodup st.jobs job.id hnodup⟩
            · intro hro p hp'
              rcases mem_updateAlias _ _ _ p hp' with h | h
              · exact hro p h
              · subst h
                intro j' hj'
                exact hro (alias', st) hmemS j'
                  ((removeJobs_sublist st.jobs job.id).mem hj')
            · intro j hj hne
              exact mem_removeJobs_of_ne st.jobs job.id j hj hne

theorem processJobsInStore_ok (fuel : Nat) (now : Int) (alias' : Alias) :
    ∀ (due : List Job) (ls : LoopState) (st : JobStoreM),
      SchedOk ls.sched →
      lookupAlias ls.sched.jobstores alias' = some st →
      (∀ j ∈ due, j ∈ st.jobs) →
      (jobIds due).Nodup →
      ∃ ls', processJobsInStore fuel now alias' due ls = (ls', none) ∧
        SchedOk ls'.sched ∧ (runsOk ls.sched → runsOk ls'.sched) := by
  intro due
  induction due with
  | nil =>
    intro ls st hS hst _ _
    exact ⟨ls, rfl, hS, fun h => h⟩
  | cons job rest ih =>
    intro ls st hS hst hmem hnodup
    obtain ⟨ls1, st1, hstep, hst1, hS1, hro1, hkeep⟩ :=
      dueJob_step fuel now alias' job ls st hS hst (hmem job (List.mem_cons_self _ _))
    simp only [jobIds, List.map_cons, List.nodup_cons] at hnodup
    have hmem1 : ∀ j ∈ rest, j ∈ st1.jobs := by
      intro j hj
      refine hkeep j (hmem j (List.mem_cons_of_mem _ hj)) ?_
      intro hideq
      exact hnodup.1 (hideq ▸ List.mem_map_of_mem (fun j => j.id) hj)
    obtain ⟨ls2, hrest, hS2, hro2⟩ := ih ls1 st1 hS1 hst1 hmem1 hnodup.2
    refine ⟨ls2, ?_, hS2, fun h => hro2 (hro1 h)⟩
    simp only [processJobsInStore, hstep, hrest]

theorem processStore_ok (fuel : Nat) (now : Int) (alias' : Alias) (ls : LoopState)
    (hS : SchedOk ls.sched) :
    ∃ ls', processStore fuel now alias' ls = (ls', none) ∧
      SchedOk ls'.sched ∧ (runsOk ls.sched → runsOk ls'.sched) := by
  cases hst : lookupAlias ls.sched.jobstores alias' with
  | none =>
    refine ⟨ls, ?_, hS, fun h => h⟩
    simp [processStore, hst]
  | some st =>
    obtain ⟨hscan0, _, _, hnodup0⟩ := hS (alias', st) (lookupAlias_mem _ _ _ hst)
    have hscan : st.scanFails = false := hscan0
    have hnodup : (jobIds st.jobs).Nodup := hnodup0
    obtain ⟨ls', hrun, hS', hro'⟩ :=
      processJobsInStore_ok fuel now alias' (dueJobs st.jobs now)
        { ls with next_wakeup := foldWake ls.next_wakeup (nextFutureTime st.jobs now) }
        st hS hst (fun j hj => mem_dueJobs st.jobs now j hj)
        (jobIds_dueJobs_nodup st.jobs now hnodup)
    refine ⟨ls', ?_, hS', hro'⟩
    simp [processStore, hst, JobStoreM.get_pending_jobs, hscan, hrun]

theorem processStores_ok (fuel : Nat) (now : Int) :
    ∀ (aliases : List Alias) (ls : LoopState),
      SchedOk ls.sched →
      ∃ ls', processStores fuel now aliases ls = (ls', none) ∧
        SchedOk ls'.sched ∧ (runsOk ls.sched → runsOk ls'.sched) := by
  intro aliases
  induction aliases with
  | nil =>
    intro ls hS
    exact ⟨ls, rfl, hS, fun h => h⟩
  | cons a rest ih =>
    intro ls hS
    obtain ⟨ls1, hone, hS1, hro1⟩ := processStore_ok fuel now a ls hS
    obtain ⟨ls2, hrest, hS2, hro2⟩ := ih ls1 hS1
    refine ⟨ls2, ?_, hS2, fun h => hro2 (hro1 h)⟩
    simp only [processStores, hone, hrest]

theorem lastSlice_of_ne_nil (l : List Int) (h : l ≠ []) :
    ∃ t, l.getLast? = some t ∧ lastSlice l = [t] := by
  induction l with
  | nil => exact absurd rfl h
  | cons x xs ih =>
    cases xs with
    | nil => exact ⟨x, rfl, rfl⟩
    | cons y ys =>
      obtain ⟨t, hlast, hslice⟩ := ih (by simp)
      refine ⟨t, ?_, ?_⟩
      · rw [List.getLast?_cons_cons]
        exact hlast
      · simp only [lastSlice, List.length_cons, Nat.add_sub_cancel] at hslice ⊢
        rw [List.drop_succ_cons]
        exact hslice

theorem processDueJob_submissions (fuel : Nat) (now : Int) (alias' : Alias)
    (job : Job) (ls : LoopState) (exec : Job → List Int → SubmitResult)
    (hE : lookupAlias ls.sched.executors job.executor = some exec)
    (hrt : runTimesFor fuel job now ≠ []) :
    (processDueJob fuel now alias' job ls).1.submissions =
      ls.submissions ++
        [⟨job.id, runTimesFor fuel job now, exec job (runTimesFor fuel job now)⟩] := by
  cases hres : exec job (runTimesFor fuel job now) with
  | maxInstancesReached => simp [processDueJob, hE, hrt, hres]
  | raised msg => simp [processDueJob, hE, hrt, hres]
  | ok =>
    simp only [processDueJob, hE, hrt, hres]
    cases htr : job.trigger (now + 1) with
    | some t' =>
      by_cases hum : underMax job.max_runs
          (job.runs + (runTimesFor fuel job now).length) = true
      · simp only [hum, if_true]
        cases hjm : jobstoreModifyAt ls.sched alias' job.id
            ⟨none, some (some t'), some (job.runs + (runTimesFor fuel job now).length)⟩ with
        | error e => simp [hres, hjm]
        | ok s' => simp [hres, hjm]
      · simp only [Bool.not_eq_true] at hum
        simp only [hum, Bool.false_eq_true, if_false]
        cases hrj : remove_job ls.sched job.id alias' with
        | error e => simp [hres, hrj]
        | ok r => simp [hres, hrj]
    | none =>
      cases hrj : remove_job ls.sched job.id alias' with
      | error e => simp [hres, hrj]
      | ok r => simp [hres, hrj]

theorem modifyPending_split (pre post : List (Job × Alias)) (jobP : Job)
    (dest : Alias) (jid : JobId) (ch : Changes)
    (hpre : ∀ p ∈ pre, p.1.id ≠ jid) (hid : jobP.id = jid) :
    modifyPending (pre ++ (jobP, dest) :: post) jid ch =
      some (pre ++ (jobP.applyChanges ch, dest) :: post) := by
  induction pre with
  | nil => simp [modifyPending, hid]
  | cons q rest ih =>
    obtain ⟨j0, a0⟩ := q
    have hne : j0.id ≠ jid := hpre (j0, a0) (List.mem_cons_self _ _)
    have ihr := ih (fun p hp => hpre p (List.mem_cons_of_mem _ hp))
    simp [modifyPending, hne, ihr]

theorem removePending_split (pre post : List (Job × Alias)) (jobP : Job)
    (dest : Alias) (jid : JobId)
    (hpre : ∀ p ∈ pre, p.1.id ≠ jid) (hid : jobP.id = jid) :
    removePending (pre ++ (jobP, dest) :: post) jid = some (pre ++ post) := by
  induction pre with
  | nil => simp [removePending, hid]
  | cons q rest ih =>
    obtain ⟨j0, a0⟩ := q
    have hne : j0.id ≠ jid := hpre (j0, a0) (List.mem_cons_self _ _)
    have ihr := ih (fun p hp => hpre p (List.mem_cons_of_mem _ hp))
    simp [removePending, hne, ihr]

/-! ### Claim theorems -/

/-- C2: for every due job whose executor submit raises
`MaxInstancesReachedError`, the firing loop catches the exception (no
propagation), records only the refused submit attempt, and leaves the
scheduler state — in particular the job's `next_run_time` and `runs` in its
store — and the pending wakeup time unchanged, so the next scan retries the
same job.  (The warning log is outside the model.) -/
theorem C2_max_instances_leaves_state_unchanged (fuel : Nat) (now : Int)
    (alias' : Alias) (job : Job) (ls : LoopState)
    (exec : Job → List Int → SubmitResult)
    (hE : lookupAlias ls.sched.executors job.executor = some exec)
    (hrt : runTimesFor fuel job now ≠ [])
    (hmi : exec job (runTimesFor fuel job now) = SubmitResult.maxInstancesReached) :
    (processDueJob fuel now alias' job ls).2 = none ∧
    (processDueJob fuel now alias' job ls).1.sched = ls.sched ∧
    (processDueJob fuel now alias' job ls).1.next_wakeup = ls.next_wakeup ∧
    (processDueJob fuel now alias' job ls).1.submissions =
      ls.submissions ++
        [⟨job.id, runTimesFor fuel job now, SubmitResult.maxInstancesReached⟩] := by
  simp [processDueJob, hE, hrt, hmi]

theorem C2_witness :
    lookupAlias lsW2.sched.executors jobW1.executor = some execMaxed ∧
    runTimesFor 4 jobW1 10 ≠ [] ∧
    execMaxed jobW1 (runTimesFor 4 jobW1 10) = SubmitResult.maxInstancesReached ∧
    ((processDueJob 4 10 "default" jobW1 lsW2).2 = none ∧
     (processDueJob 4 10 "default" jobW1 lsW2).1.sched = lsW2.sched ∧
     (processDueJob 4 10 "default" jobW1 lsW2).1.next_wakeup = lsW2.next_wakeup ∧
     (processDueJob 4 10 "default" jobW1 lsW2).1.submissions =
       lsW2.submissions ++
         [⟨jobW1.id, runTimesFor 4 jobW1 10, SubmitResult.maxInstancesReached⟩]) :=
  ⟨rfl, by decide, rfl,
    C2_max_instances_leaves_state_unchanged 4 10 "default" jobW1 lsW2 execMaxed
      rfl (by decide) rfl⟩

/-- C4: when `add_job` is called without a trigger it does synthesize a
one-shot date trigger firing at the current time, but the constructed job's
`misfire_grace_time` is NOT `None`: line 235 sets the local variable to
`None`, and line 248 (`misfire_grace_time if misfire_grace_time is not None
else self.misfire_grace_time`) then replaces that `None` with the
scheduler's configured default (here 7) — defeating the forcing the claim
(and the code's own intent) describes, and even discarding an explicitly
passed grace (here 5). -/
theorem C4_no_trigger_grace_defaulted :
    (buildJob schedC4 100 none "j" (some 5) none none 1 "default").misfire_grace_time
        = some schedC4.misfire_grace_time ∧
    some schedC4.misfire_grace_time ≠ (none : Option Nat) ∧
    (buildJob schedC4 100 none "j" (some 5) none none 1 "default").trigger 100 = some 100 ∧
    (buildJob schedC4 100 none "j" (some 5) none none 1 "default").trigger 101 = none :=
  ⟨rfl, by decide, rfl, rfl⟩

/-- C9: `get_jobs` does not return without error for every argument
combination: with a store alias given and scheduled jobs included, the
source evaluates `six.iteritems([jobstore])` on a *list*, which raises
`AttributeError` (contradicting the method's own docstring); with
`jobstore=None` the same call succeeds. -/
theorem C9_get_jobs_alias_raises :
    get_jobs schedC9 (some "default") none =
      .error (.attributeError "list object has no attribute items") ∧
    get_jobs schedC9 none none = .ok [("default", "j9")] ∧
    get_jobs schedC9 (some "default") (some true) = .ok [] :=
  ⟨rfl, rfl, rfl⟩

/-- C1: in the firing loop, for a due job whose submission succeeds, with
`new_runs = runs + len(run_times)` and the trigger evaluated at `now` plus
the smallest positive duration: if that yields a next time and
(`max_runs` is `None` or `new_runs < max_runs`), exactly
`{next_run_time, runs}` is persisted to the job's store entry and the new
time is folded into the next wakeup; otherwise the job is removed from the
store.  (Stated for a running scheduler, whose pending list is empty.) -/
theorem C1_successful_submission_updates_or_removes (fuel : Nat) (now : Int)
    (alias' : Alias) (job : Job) (ls : LoopState)
    (exec : Job → List Int → SubmitResult) (st : JobStoreM)
    (hE : lookupAlias ls.sched.executors job.executor = some exec)
    (hrt : runTimesFor fuel job now ≠ [])
    (hok : exec job (runTimesFor fuel job now) = SubmitResult.ok)
    (hpend : ls.sched.pending_jobs = [])
    (hst : lookupAlias ls.sched.jobstores alias' = some st)
    (hfind : findJobById st.jobs job.id = some job)
    (hmodf : st.modifyFails = false)
    (hremf : st.removeFails = false) :
    (∀ t', job.trigger (now + 1) = some t' →
      underMax job.max_runs (job.runs + (runTimesFor fuel job now).length) = true →
      ∃ ls' st', processDueJob fuel now alias' job ls = (ls', none) ∧
        lookupAlias ls'.sched.jobstores alias' = some st' ∧
        findJobById st'.jobs job.id =
          some { job with next_run_time := some t',
                          runs := job.runs + (runTimesFor fuel job now).length } ∧
        ls'.next_wakeup = foldWake ls.next_wakeup (some t') ∧
        ls'.events = ls.events)
    ∧ ((job.trigger (now + 1) = none ∨
        underMax job.max_runs (job.runs + (runTimesFor fuel job now).length) = false) →
      ∃ ls' st', processDueJob fuel now alias' job ls = (ls', none) ∧
        lookupAlias ls'.sched.jobstores alias' = some st' ∧
        findJobById st'.jobs job.id = none ∧
        ls'.next_wakeup = ls.next_wakeup) := by
  have hhas : hasJobId st.jobs job.id = true := hasJobId_of_findJobById _ _ _ hfind
  have hrp : removePending ls.sched.pending_jobs job.id = none := by
    rw [hpend]
    rfl
  constructor
  · intro t' htr hum
    refine ⟨{ ls with
        sched :=
          { ls.sched with
            jobstores :=
              updateAlias ls.sched.jobstores alias'
                { st with
                  jobs :=
                    modifyJobs st.jobs job.id
                      ⟨none, some (some t'),
                        some (job.runs + (runTimesFor fuel job now).length)⟩ } }
        next_wakeup := foldWake ls.next_wakeup (some t')
        submissions :=
          ls.submissions ++
            [⟨job.id, runTimesFor fuel job now, SubmitResult.ok⟩] },
      { st with
        jobs :=
          modifyJobs st.jobs job.id
            ⟨none, some (some t'),
              some (job.runs + (runTimesFor fuel job now).length)⟩ },
      ?_, lookupAlias_updateAlias_self _ _ st _ hst, ?_, rfl, rfl⟩
    · simp [processDueJob, hE, hrt, hok, htr, hum, jobstoreModifyAt, hst,
        JobStoreM.modify_job, hmodf, hhas]
    · exact findJobById_modifyJobs st.jobs job.id _ job hfind rfl
  · intro hcase
    refine ⟨{ ls with
        sched :=
          { ls.sched with
            jobstores :=
              updateAlias ls.sched.jobstores alias'
                { st with jobs := removeJobs st.jobs job.id } }
        events := ls.events ++ [Event.jobstore_job_removed alias' job.id]
        submissions :=
          ls.submissions ++
            [⟨job.id, runTimesFor fuel job now, SubmitResult.ok⟩] },
      { st with jobs := removeJobs st.jobs job.id },
      ?_, lookupAlias_updateAlias_self _ _ st _ hst,
      findJobById_removeJobs st.jobs job.id, rfl⟩
    rcases hcase with htr | hum
    · simp [processDueJob, hE, hrt, hok, htr, remove_job, hrp, hst,
        JobStoreM.remove_job, hremf, hhas]
    · cases htr : job.trigger (now + 1) with
      | none =>
        simp [processDueJob, hE, hrt, hok, htr, remove_job, hrp, hst,
          JobStoreM.remove_job, hremf, hhas]
      | some t' =>
        simp [processDueJob, hE, hrt, hok, htr, hum, remove_job, hrp, hst,
          JobStoreM.remove_job, hremf, hhas]

theorem C1_witness :
    lookupAlias lsW1.sched.executors jobW1.executor = some execOk ∧
    runTimesFor 4 jobW1 10 ≠ [] ∧
    execOk jobW1 (runTimesFor 4 jobW1 10) = SubmitResult.ok ∧
    lsW1.sched.pending_jobs = [] ∧
    lookupAlias lsW1.sched.jobstores "default" = some stW1 ∧
    findJobById stW1.jobs jobW1.id = some jobW1 ∧
    jobW1.trigger (10 + 1) = some 50 ∧
    underMax jobW1.max_runs (jobW1.runs + (runTimesFor 4 jobW1 10).length) = true ∧
    (∃ ls' st', processDueJob 4 10 "default" jobW1 lsW1 = (ls', none) ∧
      lookupAlias ls'.sched.jobstores "default" = some st' ∧
      findJobById st'.jobs jobW1.id =
        some { jobW1 with next_run_time := some 50,
                          runs := jobW1.runs + (runTimesFor 4 jobW1 10).length } ∧
      ls'.next_wakeup = foldWake lsW1.next_wakeup (some 50) ∧
      ls'.events = lsW1.events) :=
  ⟨rfl, by decide, rfl, rfl, rfl, rfl, rfl, by decide,
    (C1_successful_submission_updates_or_removes 4 10 "default" jobW1 lsW1 execOk stW1
      rfl (by decide) rfl rfl rfl rfl rfl rfl).1 50 rfl (by decide)⟩

/-- C3: for a due job (executor resolvable), when `coalesce` is true and the
computed run-time list has more than one entry, the firing loop calls the
executor exactly once, with the list reduced to only its last element; with
`coalesce` false the full list is submitted (again in exactly one call). -/
theorem C3_coalesce_submits_last_only (fuel : Nat) (now : Int) (alias' : Alias)
    (job : Job) (ls : LoopState) (exec : Job → List Int → SubmitResult)
    (hE : lookupAlias ls.sched.executors job.executor = some exec) :
    (job.coalesce = true → 1 < (Job.get_run_times fuel job now).length →
      ∃ t, (Job.get_run_times fuel job now).getLast? = some t ∧
        (processDueJob fuel now alias' job ls).1.submissions =
          ls.submissions ++ [⟨job.id, [t], exec job [t]⟩])
    ∧ (job.coalesce = false → Job.get_run_times fuel job now ≠ [] →
      (processDueJob fuel now alias' job ls).1.submissions =
        ls.submissions ++ [⟨job.id, Job.get_run_times fuel job now,
          exec job (Job.get_run_times fuel job now)⟩]) := by
  constructor
  · intro hco hlen
    have hne : Job.get_run_times fuel job now ≠ [] := by
      intro hnil
      rw [hnil] at hlen
      simp at hlen
    obtain ⟨t, hlast, hslice⟩ := lastSlice_of_ne_nil _ hne
    have hrtf : runTimesFor fuel job now = [t] := by
      simp [runTimesFor, hne, hco, hslice]
    have hsub := processDueJob_submissions fuel now alias' job ls exec hE
      (by rw [hrtf]; simp)
    rw [hrtf] at hsub
    exact ⟨t, hlast, hsub⟩
  · intro hco hne
    have hrtf : runTimesFor fuel job now = Job.get_run_times fuel job now := by
      simp [runTimesFor, hco]
    have hsub := processDueJob_submissions fuel now alias' job ls exec hE
      (by rw [hrtf]; exact hne)
    rw [hrtf] at hsub
    exact hsub

theorem C3_witness :
    lookupAlias lsW3.sched.executors jobW3.executor = some execOk ∧
    jobW3.coalesce = true ∧
    1 < (Job.get_run_times 4 jobW3 10).length ∧
    (∃ t, (Job.get_run_times 4 jobW3 10).getLast? = some t ∧
      (processDueJob 4 10 "default" jobW3 lsW3).1.submissions =
        lsW3.submissions ++ [⟨jobW3.id, [t], execOk jobW3 [t]⟩]) :=
  ⟨rfl, rfl, by decide,
    (C3_coalesce_submits_last_only 4 10 "default" jobW3 lsW3 execOk rfl).1
      rfl (by decide)⟩

/-- C5 counterexample: `jobC5` has `max_runs = 1`, `runs = 0`, `coalesce`
false and two due fire times at `now = 10`; one scan of the loop submits 2
run times for it — more than `max_runs` — because the cap is checked only
after submission.  (The loop then removes the job, and no error escapes.) -/
theorem C5_counterexample :
    jobC5.max_runs = some 1 ∧
    successRunCount (process_jobs 5 schedC5 10).1.submissions "j5" = 2 ∧
    (process_jobs 5 schedC5 10).2 = none := by
  refine ⟨rfl, ?_, rfl⟩
  rfl

/-- C5 (amended): for fault-free stores with per-store unique job ids, the
`runs` value persisted in the stores never exceeds `max_runs` — the loop
persists `runs + len(run_times)` only when it is strictly below `max_runs`
and removes the job otherwise — although the run times submitted within one
scan may exceed `max_runs` (see the counterexample). -/
theorem C5_runs_invariant_preserved (fuel : Nat) (s : SchedState) (now : Int)
    (hS : SchedOk s) (hro : runsOk s) :
    runsOk (process_jobs fuel s now).1.sched := by
  obtain ⟨ls', heq, _, hpres⟩ :=
    processStores_ok fuel now (s.jobstores.map (fun p => p.1))
      { sched := s, next_wakeup := none, events := [], submissions := [] } hS
  unfold process_jobs
  rw [heq]
  exact hpres hro

theorem schedW1_SchedOk : SchedOk schedW1 := by
  intro p hp
  simp only [schedW1, List.mem_singleton] at hp
  subst hp
  exact ⟨rfl, rfl, rfl, by decide⟩

theorem schedW1_runsOk : runsOk schedW1 := by
  intro p hp
  simp only [schedW1, List.mem_singleton] at hp
  subst hp
  intro j hj
  simp only [stW1, List.mem_singleton] at hj
  subst hj
  rfl

theorem schedW2_SchedOk : SchedOk schedW2 := by
  intro p hp
  simp only [schedW2, List.mem_singleton] at hp
  subst hp
  exact ⟨rfl, rfl, rfl, by decide⟩

theorem C5_witness :
    SchedOk schedW1 ∧ runsOk schedW1 ∧
    runsOk (process_jobs 4 schedW1 10).1.sched :=
  ⟨schedW1_SchedOk, schedW1_runsOk,
    C5_runs_invariant_preserved 4 schedW1 10 schedW1_SchedOk schedW1_runsOk⟩

/-- C6 counterexample: an exception raised by a store's due scan is NOT
caught inside the firing loop — `jobstore.get_pending_jobs(now)` at line 498
sits outside every `try` — so it escapes `_process_jobs`. -/
theorem C6_counterexample :
    (process_jobs 3 schedC6 0).2 = some (PyErr.storeError "get_pending_jobs raised") :=
  rfl

/-- C6 (amended): exceptions from executor lookup and from `submit_job`
(`MaxInstancesReachedError` or any other) are caught inside the loop, so for
any executor registry and any submit behaviour the loop finishes without an
uncaught exception, provided every registered store is fault-free (its scan
and its post-submission updates do not raise) and has unique job ids; store
exceptions, by contrast, propagate (see the counterexample). -/
theorem C6_loop_survives_executor_faults (fuel : Nat) (s : SchedState) (now : Int)
    (hS : SchedOk s) :
    (process_jobs fuel s now).2 = none := by
  obtain ⟨ls', heq, _, _⟩ :=
    processStores_ok fuel now (s.jobstores.map (fun p => p.1))
      { sched := s, next_wakeup := none, events := [], submissions := [] } hS
  unfold process_jobs
  rw [heq]

theorem C6_witness :
    SchedOk schedW2 ∧ (process_jobs 4 schedW2 10).2 = none :=
  ⟨schedW2_SchedOk, C6_loop_survives_executor_faults 4 schedW2 10 schedW2_SchedOk⟩

/-- C7 counterexample: after `shutdown` succeeds on a running scheduler, a
subsequent `add_job` does NOT fail with `SchedulerNotRunningError` — it
succeeds, parking the job in the pending list (the `if not self.running`
branch of `add_job`). -/
theorem C7_counterexample :
    ∃ s1 evs s2 evs2 wk h, shutdown schedC7 true = .ok (s1, evs) ∧
      add_job s1 0 none "x" none none none 1 "default" "default" =
        .ok (s2, evs2, wk, h) :=
  ⟨_, _, _, _, _, _, rfl, rfl⟩

/-- C7 (amended): after `shutdown(wait)` returns, the scheduler is stopped
and a second `shutdown` call fails with `SchedulerNotRunningError`; but
`add_job` does not fail while stopped — it parks the job in the pending
list and returns a handle, emitting no event and requesting no wakeup. -/
theorem C7_shutdown_stops_and_second_fails (s : SchedState) (w : Bool)
    (s' : SchedState) (evs : List Event)
    (h : shutdown s w = .ok (s', evs)) :
    s'.stopped = true ∧
    (∀ w2, shutdown s' w2 = .error PyErr.schedulerNotRunning) ∧
    (∀ (now : Int) (trig : Option (Int → Option Int)) (id : JobId)
        (mgt : Option Nat) (co : Option Bool) (mr : Option Nat) (mi : Nat)
        (store ex : Alias),
      add_job s' now trig id mgt co mr mi store ex =
        .ok ({ s' with pending_jobs := s'.pending_jobs ++
            [(buildJob s' now trig id mgt co mr mi ex, store)] },
          [], false, (store, id))) := by
  by_cases hs : s.stopped = true
  · simp [shutdown, hs] at h
  · simp only [shutdown, if_neg hs, Except.ok.injEq, Prod.mk.injEq] at h
    obtain ⟨h1, _⟩ := h
    subst h1
    refine ⟨rfl, ?_, ?_⟩
    · intro w2
      simp [shutdown]
    · intro now trig id mgt co mr mi store ex
      simp [add_job, buildJob]

theorem C7_witness :
    shutdown schedC7 true =
      .ok ({ schedC7 with stopped := true }, [Event.scheduler_shutdown]) ∧
    (({ schedC7 with stopped := true } : SchedState).stopped = true ∧
     (∀ w2, shutdown { schedC7 with stopped := true } w2 =
        .error PyErr.schedulerNotRunning) ∧
     (∀ (now : Int) (trig : Option (Int → Option Int)) (id : JobId)
         (mgt : Option Nat) (co : Option Bool) (mr : Option Nat) (mi : Nat)
         (store ex : Alias),
       add_job { schedC7 with stopped := true } now trig id mgt co mr mi store ex =
         .ok ({ { schedC7 with stopped := true } with pending_jobs :=
             ({ schedC7 with stopped := true } : SchedState).pending_jobs ++
               [(buildJob { schedC7 with stopped := true } now trig id mgt co mr mi ex,
                 store)] },
           [], false, (store, id)))) :=
  ⟨rfl, C7_shutdown_stops_and_second_fails schedC7 true _ _ rfl⟩

/-- C8 counterexample: `modify_job` with an empty change set on a stored job
is not a silent no-op — the store contents are unchanged, but a
`JOB_MODIFIED` event is emitted (and a wakeup requested), because the
notification at line 294 runs regardless of the change set. -/
theorem C8_counterexample :
    ∃ s', modify_job schedC8 "j8" "default" {} =
      .ok (s', [Event.jobstore_job_modified "default" "j8"], true) :=
  ⟨_, rfl⟩

/-- C8 (amended): `modify_job` with an empty change set on an existing
stored job (no pending job matching the id) leaves the scheduler state —
including the job and its store — entirely unchanged, but it still emits
`JOB_MODIFIED` and requests a wakeup; it is not event-free. -/
theorem C8_empty_modify_emits_event (s : SchedState) (jid : JobId)
    (alias' : Alias) (st : JobStoreM) (job : Job)
    (hpend : modifyPending s.pending_jobs jid {} = none)
    (hst : lookupAlias s.jobstores alias' = some st)
    (hmodf : st.modifyFails = false)
    (hfind : findJobById st.jobs jid = some job) :
    modify_job s jid alias' {} =
      .ok (s, [Event.jobstore_job_modified alias' jid], true) := by
  have hhas : hasJobId st.jobs jid = true := hasJobId_of_findJobById _ _ _ hfind
  have hupd : updateAlias s.jobstores alias' st = s.jobstores :=
    updateAlias_self _ _ _ hst
  have hmodf' : (st.modifyFails = true) = False := by simp [hmodf]
  simp [modify_job, hpend, hst, JobStoreM.lookup_job, hfind, Job.validate_changes,
    JobStoreM.modify_job, hmodf', hhas, modifyJobs_empty, hupd]

theorem C8_witness :
    modifyPending schedC8.pending_jobs "j8" {} = none ∧
    lookupAlias schedC8.jobstores "default" = some { jobs := [jobC8] } ∧
    findJobById [jobC8] "j8" = some jobC8 ∧
    modify_job schedC8 "j8" "default" {} =
      .ok (schedC8, [Event.jobstore_job_modified "default" "j8"], true) :=
  ⟨rfl, rfl, rfl,
    C8_empty_modify_emits_event schedC8 "j8" "default" { jobs := [jobC8] } jobC8
      rfl rfl rfl rfl⟩

/-- C10: while the scheduler is stopped, `modify_job` and `remove_job`
match a pending job by its id alone: whatever store alias is passed, the
first pending entry with that id is modified in memory (resp. deleted from
the pending list), the stores are left untouched, no event is emitted and
no wakeup is requested. -/
theorem C10_pending_match_ignores_alias (s : SchedState) (jid : JobId)
    (alias' : Alias) (ch : Changes) (pre post : List (Job × Alias))
    (jobP : Job) (dest : Alias)
    (_hstop : s.stopped = true)
    (hsplit : s.pending_jobs = pre ++ (jobP, dest) :: post)
    (hid : jobP.id = jid)
    (hpre : ∀ p ∈ pre, p.1.id ≠ jid) :
    modify_job s jid alias' ch =
      .ok ({ s with pending_jobs := pre ++ (jobP.applyChanges ch, dest) :: post },
        [], false) ∧
    remove_job s jid alias' =
      .ok ({ s with pending_jobs := pre ++ post }, []) := by
  constructor
  · simp [modify_job, hsplit, modifyPending_split pre post jobP dest jid ch hpre hid]
  · simp [remove_job, hsplit, removePending_split pre post jobP dest jid hpre hid]

theorem C10_witness :
    schedC10.stopped = true ∧
    schedC10.pending_jobs = [] ++ (jobC10, "storeA") :: [] ∧
    jobC10.id = "p1" ∧
    (modify_job schedC10 "p1" "other" { runs := some 3 } =
        .ok ({ schedC10 with pending_jobs :=
            [] ++ (jobC10.applyChanges { runs := some 3 }, "storeA") :: [] },
          [], false) ∧
      remove_job schedC10 "p1" "other" =
        .ok ({ schedC10 with pending_jobs := [] ++ [] }, [])) :=
  ⟨rfl, rfl, rfl,
    C10_pending_match_ignores_alias schedC10 "p1" "other" { runs := some 3 }
      [] [] jobC10 "storeA" rfl rfl rfl (by intro p hp; simp at hp)⟩
